import Mathlib

/-!
# Verification of `dantil.js` (danny-util)

A shallow embedding, in Lean 4, of the parts of `src/dantil.js` that the
specification's claims are about:

* `illFormedOpts` (options-schema validation),
* `prettyPrint` / `getStylizedStringLength` (console printer line policy),
* `redirectOutputToFile` / `expandHomeDir` (stdout redirection),
* `time` / `timeEnd` (high-resolution timers),
* `count` / `countEnd` / `countEndAll` (profiling counters),
* `arraysEqual` (shallow array equality),
* `dashedToCamelCase` (case conversion).

JavaScript strings are modelled either as Lean `String`s (where only whole-string
equality matters, e.g. property keys and labels) or as `List Nat` of UTF-16 code
units (where character-level processing matters, e.g. the printer and case
conversion).  JavaScript's heap-reference semantics is modelled by giving every
array and object an identity (`id : Nat`): two live JavaScript objects are `===`
exactly when they are the same reference, which the model renders as equal ids.
`null` is not modelled: the source dereferences `optsVal.constructor` on it,
which throws a `TypeError` rather than returning either boolean.
-/

namespace Dantil

/-! ## JavaScript value model -/

/-- Constructor tags relevant to `illFormedOpts`: the value of `v.constructor`
for the primitive wrappers and the two object kinds the schema language uses. -/
inductive TypeTag where
  | number
  | string
  | boolean
  | array
  | object
deriving DecidableEq, Repr

/-- JavaScript runtime values (without `null`, see the module comment).
Numbers carry an `Int` (no claim depends on fractional values), strings a
Lean `String`, and arrays/objects a reference id. -/
inductive JsVal where
  | undef
  | num (n : Int)
  | str (s : String)
  | bool (b : Bool)
  | arr (id : Nat) (elems : List JsVal)
  | obj (id : Nat)

/-- JavaScript strict equality `===` on the modelled values: primitives by
value, arrays and objects by reference (id). -/
def jsStrictEq : JsVal → JsVal → Bool
  | .undef, .undef => true
  | .num a, .num b => a == b
  | .str a, .str b => a == b
  | .bool a, .bool b => a == b
  | .arr i _, .arr j _ => i == j
  | .obj i, .obj j => i == j
  | _, _ => false

/-- `v.constructor`, as a tag; `undefined` has no constructor (`none`). -/
def constructorTag : JsVal → Option TypeTag
  | .undef => none
  | .num _ => some .number
  | .str _ => some .string
  | .bool _ => some .boolean
  | .arr _ _ => some .array
  | .obj _ => some .object

/-! ## `illFormedOpts` (src/dantil.js lines 44–99) -/

/-- `schemaVal.type || schemaVal`: the declared shape of one property, either a
constructor function (type tag) or an array of predefined accepted values. -/
inductive PropType where
  | tag (t : TypeTag)
  | enum (vs : List JsVal)

/-- One schema entry: either a bare `PropType` (e.g. `num: Number` or
`val: ['red','blue']`) or a descriptor object `{ type, optional, arrayType }`. -/
inductive SchemaRule where
  | bare (p : PropType)
  | descriptor (p : PropType) (optional : Bool) (arrayType : Option TypeTag)

/-- `schemaVal.type || schemaVal` (line 65). -/
def schemaPropType : SchemaRule → PropType
  | .bare p => p
  | .descriptor p _ _ => p

/-- `val.optional` (line 49); `undefined`, hence falsy, on a bare rule. -/
def isOptional : SchemaRule → Bool
  | .bare _ => false
  | .descriptor _ o _ => o

/-- `schemaVal.arrayType` (line 90); `undefined` on a bare rule. -/
def arrayTypeOf : SchemaRule → Option TypeTag
  | .bare _ => none
  | .descriptor _ _ a => a

/-- The guard of line 68: `optsVal === undefined || (Array.isArray(optsVal) &&
(optsVal.length === 0 || optsVal.indexOf(undefined) !== -1))`. -/
def isUndefinedLike : JsVal → Bool
  | .undef => true
  | .arr _ elems => elems.isEmpty || elems.any (fun el => jsStrictEq el .undef)
  | _ => false

/-- The diagnostics `illFormedOpts` can emit, each tagged with the property
name it reports (lines 50, 59, 69, 77, 85, 91). -/
inductive OptsErr where
  | missingProperty (prop : String)
  | unrecognizedProperty (prop : String)
  | undefinedValue (prop : String)
  | unrecognizedValue (prop : String)
  | wrongType (prop : String)
  | wrongElementType (prop : String)
deriving DecidableEq, Repr

/-- An options object / schema: ordered key–value pairs (`for..in` iterates
string keys in insertion order; a JavaScript object has no duplicate keys). -/
abbrev Obj (α : Type) := List (String × α)

/-- The body of the second loop (lines 56–95) for one candidate property:
unrecognized-property, undefined-value, predefined-values, type and
element-type checks, in source order, first failure winning. -/
def checkProp (schema : Obj SchemaRule) (prop : String) (optsVal : JsVal) :
    Option OptsErr :=
  match List.lookup prop schema with
  | none => some (.unrecognizedProperty prop)
  | some schemaVal =>
    if isUndefinedLike optsVal then some (.undefinedValue prop)
    else
      match schemaPropType schemaVal with
      | .enum vs =>
        if vs.any (fun v => jsStrictEq v optsVal) then none
        else some (.unrecognizedValue prop)
      | .tag t =>
        if constructorTag optsVal ≠ some t then some (.wrongType prop)
        else
          match optsVal, arrayTypeOf schemaVal with
          | .arr _ elems, some at_ =>
            if elems.all (fun el => constructorTag el == some at_) then none
            else some (.wrongElementType prop)
          | _, _ => none

/-- The first loop (lines 46–53): report the first required schema property
missing from `opts`. -/
def findMissingProp (schema : Obj SchemaRule) (opts : Obj JsVal) :
    Option OptsErr :=
  schema.findSome? fun pr =>
    if !isOptional pr.2 && (List.lookup pr.1 opts).isNone then
      some (.missingProperty pr.1)
    else none

/-- `illFormedOpts`, refined to also name the diagnostic it logs: `none` when
the function returns `false`, `some e` when it logs `e` and returns `true`. -/
def illFormedOptsErr (schema : Obj SchemaRule) (opts : Obj JsVal) :
    Option OptsErr :=
  match findMissingProp schema opts with
  | some e => some e
  | none => opts.findSome? fun pv => checkProp schema pv.1 pv.2

/-- The boolean result of `illFormedOpts` (line 44): `true` iff ill-formed. -/
def illFormedOpts (schema : Obj SchemaRule) (opts : Obj JsVal) : Bool :=
  (illFormedOptsErr schema opts).isSome

/-! ### Spec-side conformance predicates for claim C1 -/

/-- Success condition of checks 4–6 for one property: the value is a member of
the predefined-value set, or its constructor matches the declared type and (for
arrays with a declared `arrayType`) every element's constructor matches it. -/
def valueMatches (rule : SchemaRule) (v : JsVal) : Bool :=
  match schemaPropType rule with
  | .enum vs => vs.any (fun w => jsStrictEq w v)
  | .tag t =>
    constructorTag v == some t &&
      match v, arrayTypeOf rule with
      | .arr _ elems, some at_ => elems.all (fun el => constructorTag el == some at_)
      | _, _ => true

/-- The "absent sentinel" condition exactly as the claim words it: the value is
`undefined`, or is a sequence *containing* `undefined` (note: no clause for an
*empty* sequence). -/
def containsUndefSentinel : JsVal → Bool
  | .undef => true
  | .arr _ elems => elems.any (fun el => jsStrictEq el .undef)
  | _ => false

/-- Conformance as claim C1 words it: every required key of the schema present,
every candidate key declared, no value is the absent sentinel nor a sequence
containing it, and every value matches its declared type/element-type or
permitted-value set. -/
def specConformsC1 (schema : Obj SchemaRule) (opts : Obj JsVal) : Bool :=
  schema.all (fun pr => isOptional pr.2 || (List.lookup pr.1 opts).isSome) &&
  opts.all (fun pv => (List.lookup pv.1 schema).isSome) &&
  opts.all (fun pv => !containsUndefSentinel pv.2) &&
  opts.all (fun pv =>
    match List.lookup pv.1 schema with
    | some rule => valueMatches rule pv.2
    | none => true)

/-- Conformance amended to match the code: like `specConformsC1` but rejecting
every value for which the source's undefined-guard fires, which additionally
rejects *empty* sequences. -/
def specConformsAmended (schema : Obj SchemaRule) (opts : Obj JsVal) : Bool :=
  schema.all (fun pr => isOptional pr.2 || (List.lookup pr.1 opts).isSome) &&
  opts.all (fun pv => (List.lookup pv.1 schema).isSome) &&
  opts.all (fun pv => !isUndefinedLike pv.2) &&
  opts.all (fun pv =>
    match List.lookup pv.1 schema with
    | some rule => valueMatches rule pv.2
    | none => true)

/-! ### Check decomposition for claim C2 -/

/-- Step 2 in isolation: unrecognized property (line 58). -/
def unrecognizedCheck (schema : Obj SchemaRule) (prop : String) : Option OptsErr :=
  if (List.lookup prop schema).isSome then none
  else some (.unrecognizedProperty prop)

/-- Step 3 in isolation: undefined value (line 68). -/
def undefinedCheck (prop : String) (v : JsVal) : Option OptsErr :=
  if isUndefinedLike v then some (.undefinedValue prop) else none

/-- Step 4 in isolation: membership in a predefined-value set (line 76). -/
def enumCheck (schema : Obj SchemaRule) (prop : String) (v : JsVal) :
    Option OptsErr :=
  match List.lookup prop schema with
  | some rule =>
    match schemaPropType rule with
    | .enum vs =>
      if vs.any (fun w => jsStrictEq w v) then none
      else some (.unrecognizedValue prop)
    | .tag _ => none
  | none => none

/-- Step 5 in isolation: constructor/type match (line 84). -/
def typeCheck (schema : Obj SchemaRule) (prop : String) (v : JsVal) :
    Option OptsErr :=
  match List.lookup prop schema with
  | some rule =>
    match schemaPropType rule with
    | .tag t => if constructorTag v ≠ some t then some (.wrongType prop) else none
    | .enum _ => none
  | none => none

/-- Step 6 in isolation: element types of a sequence value (line 90). -/
def elementTypeCheck (schema : Obj SchemaRule) (prop : String) (v : JsVal) :
    Option OptsErr :=
  match List.lookup prop schema with
  | some rule =>
    match schemaPropType rule with
    | .tag _ =>
      match v, arrayTypeOf rule with
      | .arr _ elems, some at_ =>
        if elems.all (fun el => constructorTag el == some at_) then none
        else some (.wrongElementType prop)
      | _, _ => none
    | .enum _ => none
  | none => none

/-- The candidate-key checks (steps 2–6), in the spec's listed order. -/
def checkList (schema : Obj SchemaRule) (prop : String) (v : JsVal) :
    List (Option OptsErr) :=
  [unrecognizedCheck schema prop,
   undefinedCheck prop v,
   enumCheck schema prop v,
   typeCheck schema prop v,
   elementTypeCheck schema prop v]

/-- The amended description of the algorithm: the missing-property pass over
the schema completes first; then, per candidate key in insertion order, the
checks of `checkList` are applied in order; the first failure wins. -/
def illFormedOptsSequenced (schema : Obj SchemaRule) (opts : Obj JsVal) :
    Option OptsErr :=
  (findMissingProp schema opts).orElse fun _ =>
    opts.findSome? fun pv => (checkList schema pv.1 pv.2).findSome? id

/-- The algorithm as claim C2 describes it: each of the six checks runs as a
full pass over the schema (step 1) or over every candidate key (steps 2–6)
before the next check begins, with the first failure winning. -/
def illFormedOptsPhasedErr (schema : Obj SchemaRule) (opts : Obj JsVal) :
    Option OptsErr :=
  (findMissingProp schema opts).orElse fun _ =>
  ((opts.findSome? fun pv => unrecognizedCheck schema pv.1).orElse fun _ =>
  ((opts.findSome? fun pv => undefinedCheck pv.1 pv.2).orElse fun _ =>
  ((opts.findSome? fun pv => enumCheck schema pv.1 pv.2).orElse fun _ =>
  ((opts.findSome? fun pv => typeCheck schema pv.1 pv.2).orElse fun _ =>
    opts.findSome? fun pv => elementTypeCheck schema pv.1 pv.2))))

/-! ## Console printer (src/dantil.js lines 312–351)

Strings here are `List Nat` of UTF-16 code units (27 = ESC, 91 = `[`,
109 = `m`, 44 = `,`, 10 = newline, 32 = space, 45 = `-`). -/

/-- ASCII digit code. -/
def isDigitCode (n : Nat) : Bool := decide (48 ≤ n) && decide (n ≤ 57)

/-- `getStylizedStringLength` (line 349): the length of the string after
deleting every occurrence of `/\u001b\[\d\d?m/` (regex scan: non-overlapping
matches, left to right, advancing one character when no match starts here). -/
def getStylizedStringLength : List Nat → Nat
  | 27 :: 91 :: a :: b :: c :: rest =>
    if (isDigitCode a && isDigitCode b) && c == 109 then
      getStylizedStringLength rest
    else if isDigitCode a && b == 109 then
      getStylizedStringLength (c :: rest)
    else 1 + getStylizedStringLength (91 :: a :: b :: c :: rest)
  | 27 :: 91 :: a :: b :: rest =>
    if isDigitCode a && b == 109 then getStylizedStringLength rest
    else 1 + getStylizedStringLength (91 :: a :: b :: rest)
  | _ :: rest => 1 + getStylizedStringLength rest
  | [] => 0

/-- `/,\n/.test(formattedArg)` (line 322): the rendering contains a comma
immediately followed by a newline. -/
def containsCommaNewline : List Nat → Bool
  | 44 :: 10 :: _ => true
  | _ :: rest => containsCommaNewline rest
  | [] => false

/-- The pattern exactly as claim C6 words it: a newline immediately followed
by a comma. -/
def containsNewlineComma : List Nat → Bool
  | 10 :: 44 :: _ => true
  | _ :: rest => containsNewlineComma rest
  | [] => false

/-- An argument to the printer: a string (used verbatim, line 319) or any
other value together with its `util.inspect` rendering (`util.inspect` is
Node's, not this repository's; the claim is about the line policy applied to
the renderings). -/
inductive PrintArg where
  | str (s : List Nat)
  | inspected (rendered : List Nat)

/-- `typeof arg === 'string' ? arg : util.inspect(arg, opts)` (line 319). -/
def formatArg : PrintArg → List Nat
  | .str s => s
  | .inspected r => r

/-- One iteration of the `forEach` of lines 315–335, on the *reversed*
accumulator (`racc = formattedArgs.reverse`; `racc = []` iff `i === 0`). -/
def prettyPrintStep (racc : List (List Nat)) (fa : List Nat) :
    List (List Nat) :=
  match racc with
  | [] => [fa]
  | prev :: rest =>
    if containsCommaNewline fa then fa :: prev :: rest
    else if 80 < getStylizedStringLength prev + getStylizedStringLength fa + 1 then
      fa :: prev :: rest
    else (prev ++ 32 :: fa) :: rest

/-- `prettyPrint` (line 312), as the list of output lines it prints (each
`formattedArgs` entry is passed to `console.log`, line 338). -/
def prettyPrint (args : List PrintArg) : List (List Nat) :=
  (args.foldl (fun racc arg => prettyPrintStep racc (formatArg arg)) []).reverse

/-! ## Output redirection (src/dantil.js lines 124–154) -/

/-- A value of `process.stdout.write`: the original console writer, the
file-stream writer installed by `redirectOutputToFile`, or any other function
assigned by user code. -/
inductive Sink where
  | console
  | file (path : List Nat)
  | other (id : Nat)
deriving DecidableEq

/-- The process state the redirection helper touches: the current
`process.stdout.write` and the record of everything written through it. -/
structure ProcState where
  stdoutWrite : Sink
  output : List (Sink × List Nat)

/-- `expandHomeDir` (line 182): `path.replace(/^~/, home)`. -/
def expandHomeDir (home : List Nat) : List Nat → List Nat
  | 126 :: rest => home ++ rest
  | path => path

/-- Writing one message through the current `process.stdout.write`. -/
def writeStdout (s : ProcState) (msg : List Nat) : ProcState :=
  { s with output := s.output ++ [(s.stdoutWrite, msg)] }

/-- The first argument of the success log of line 145. -/
def outputSavedTo : List Nat :=
  ("Output saved to:".toList.map Char.toNat) ++ [32]

/-- `redirectOutputToFile` (line 124).  `home` models the home-directory
environment variable, `realpath` models `fs.realpathSync`, and the callback —
which runs with the redirected sink and may itself mutate the state — returns
its JavaScript result (`Except`: normal return or thrown error) together with
the state it leaves behind.  (The `fs.writeFileSync(path)` of line 129 can
throw when the path is a directory, but that happens *before* the sink is
swapped, leaving `process.stdout.write` untouched; the model covers the
execution from the swap of line 134 on.) -/
def redirectOutputToFile {ε α : Type} (home : List Nat)
    (realpath : List Nat → List Nat) (path : List Nat)
    (callback : ProcState → Except ε α × ProcState) (s : ProcState) :
    Except ε α × ProcState :=
  -- line 126: `path = dantil.expandHomeDir(path)`; line 133 captures
  -- `oldWrite` = the pre-call `s.stdoutWrite`; line 134 redirects the sink
  match callback { s with stdoutWrite := Sink.file (expandHomeDir home path) } with
  | (.ok v, s2) =>
    -- lines 143–147: restore `process.stdout`, log the real path, return
    (.ok v, writeStdout { s2 with stdoutWrite := s.stdoutWrite }
        (outputSavedTo ++ realpath (expandHomeDir home path)))
  | (.error e, s2) =>
    -- lines 148–153: restore `process.stdout`, rethrow
    (.error e, { s2 with stdoutWrite := s.stdoutWrite })

/-! ## Insertion-ordered maps (the semantics of a JavaScript `Map`) -/

/-- `Map.prototype.set`: replace the value of an existing key in place
(keeping its position), otherwise append the new entry. -/
def mapSet {κ ν : Type} [DecidableEq κ] : List (κ × ν) → κ → ν → List (κ × ν)
  | [], k, v => [(k, v)]
  | (k', v') :: rest, k, v =>
    if k' = k then (k, v) :: rest else (k', v') :: mapSet rest k v

/-- `Map.prototype.delete`: remove the entry of a key, if present. -/
def mapDelete {κ ν : Type} [DecidableEq κ] : List (κ × ν) → κ → List (κ × ν)
  | [], _ => []
  | (k', v') :: rest, k => if k' = k then rest else (k', v') :: mapDelete rest k

/-! ## Timers (src/dantil.js lines 449–494)

Timestamps are modelled as `Nat` nanoseconds since process start (what
`process.hrtime()` measures).  The printed duration
`durationTuple[0] * 1e3 + durationTuple[1] / 1e6` is a strictly increasing
function of the nanosecond difference, which the model returns directly. -/

/-- The `_times` map (line 455). -/
abbrev Times := List (String × Nat)

/-- `time` (line 475): `_times.set(label, process.hrtime())`. -/
def time (label : String) (now : Nat) (t : Times) : Times :=
  mapSet t label now

/-- `timeEnd` (line 484): throws `Error('No such label:')` when `_times` has
no entry for the label (hrtime tuples are truthy, so `!time` iff absent);
otherwise computes the elapsed duration.  The function never writes `_times`. -/
def timeEnd (label : String) (now : Nat) (t : Times) : Except String Nat :=
  match List.lookup label t with
  | none => .error "No such label:"
  | some start => .ok (now - start)

/-- A history of timer calls, each with the clock value at which it ran. -/
inductive TimerOp where
  | time (label : String) (now : Nat)
  | timeEnd (label : String) (now : Nat)

/-- The `_times` table left behind by a history of timer calls (`timeEnd`
only reads the table). -/
def runTimers : List TimerOp → Times → Times
  | [], t => t
  | .time l now :: ops, t => runTimers ops (time l now t)
  | .timeEnd _ _ :: ops, t => runTimers ops t

/-- Whether a history entry is a `time` call for the given label. -/
def isTimeFor (label : String) : TimerOp → Bool
  | .time l _ => l == label
  | .timeEnd _ _ => false

/-! ## Counters (src/dantil.js lines 496–556) -/

/-- The `_counts` map (line 502). -/
abbrev Counts := List (String × Nat)

/-- `count` (line 516): `_counts.set(label, (_counts.get(label) || 0) + 1)`. -/
def count (label : String) (m : Counts) : Counts :=
  mapSet m label ((List.lookup label m).getD 0 + 1)

/-- `countEnd` (line 526): the printed `(label, value)` line (value 0 when the
label was never incremented) and the table with the label deleted. -/
def countEnd (label : String) (m : Counts) : (String × Nat) × Counts :=
  ((label, (List.lookup label m).getD 0), mapDelete m label)

/-- `countEndAll` (line 549): the printed `(label, value)` lines —
`Map.prototype.forEach` visits entries in insertion order — and the cleared
table. -/
def countEndAll (m : Counts) : List (String × Nat) × Counts :=
  (m, [])

/-- Counting a whole list of labels in order. -/
def countAll (labels : List String) (m : Counts) : Counts :=
  labels.foldl (fun m l => count l m) m

/-- The labels of a history in order of first occurrence (spec side: "order of
first increment"). -/
def firstIncrementOrder (labels : List String) : List String :=
  labels.foldl (fun acc l => if l ∈ acc then acc else acc ++ [l]) []

/-- A history of counter calls. -/
inductive CounterOp where
  | count (label : String)
  | countEnd (label : String)
  | countEndAll

/-- The `_counts` table left behind by a history of counter calls. -/
def runCounterOps : List CounterOp → Counts → Counts
  | [], m => m
  | .count l :: ops, m => runCounterOps ops (count l m)
  | .countEnd l :: ops, m => runCounterOps ops (countEnd l m).2
  | .countEndAll :: ops, m => runCounterOps ops (countEndAll m).2

/-! ## `arraysEqual` (src/dantil.js lines 579–596)

The `a === b` short-circuit of line 581 returns `true` only when both
arguments are the same array, in which case the element loop also returns
`true` (strict equality is reflexive on the modelled values — numbers are
integral, so there is no `NaN`); the `!a || !b` guard of line 584 concerns
non-array arguments, outside the claim's "for all arrays" scope.  The model
therefore embeds the length check and element loop. -/

/-- `arraysEqual` (line 579): same length and every element pair strictly
equal. -/
def arraysEqual (a b : List JsVal) : Bool :=
  if a.length ≠ b.length then false
  else (a.zip b).all fun p => jsStrictEq p.1 p.2

/-! ## Case conversion (src/dantil.js lines 620–624) -/

/-- `\w`: ASCII letter, digit or underscore (code 95). -/
def isWordCode (n : Nat) : Bool :=
  (decide (48 ≤ n) && decide (n ≤ 57)) ||
  (decide (65 ≤ n) && decide (n ≤ 90)) ||
  (decide (97 ≤ n) && decide (n ≤ 122)) ||
  n == 95

/-- `String.prototype.toUpperCase` on one code unit (ASCII range). -/
def jsUpperCode (n : Nat) : Nat :=
  if 97 ≤ n ∧ n ≤ 122 then n - 32 else n

/-- `dashedToCamelCase` (line 620): a global replace of the regex
"dash, then one word character as a group" by the uppercased group — a
left-to-right scan replacing each dash-then-word-character pair by the
uppercased character (45 = `-`). -/
def dashedToCamelCase : List Nat → List Nat
  | [] => []
  | [c] => [c]
  | c :: d :: rest =>
    if c = 45 then
      if isWordCode d then jsUpperCode d :: dashedToCamelCase rest
      else 45 :: dashedToCamelCase (d :: rest)
    else c :: dashedToCamelCase (d :: rest)

/-- Modelled from the spec: `camelToKebabCase`, the camelCase → kebab-case
direction, which `src/dantil.js` does not contain (only `dashedToCamelCase`
exists).  Spec: "uppercase letter → `-` + lowercase letter", by direct
character-class substitution (65–90 are the uppercase ASCII letters, +32 is
`toLowerCase`). -/
def camelToKebabCase : List Nat → List Nat
  | [] => []
  | c :: rest =>
    if 65 ≤ c ∧ c ≤ 90 then 45 :: (c + 32) :: camelToKebabCase rest
    else c :: camelToKebabCase rest

/-- The restricted identifier alphabet of the round-trip law: ASCII letters,
digits and underscore (in particular no dash). -/
def isIdentCode (n : Nat) : Bool :=
  (decide (48 ≤ n) && decide (n ≤ 57)) ||
  (decide (65 ≤ n) && decide (n ≤ 90)) ||
  (decide (97 ≤ n) && decide (n ≤ 122)) ||
  n == 95

/-- Code units of a literal, for concrete examples. -/
def codes (s : String) : List Nat :=
  s.toList.map Char.toNat

/-! ## Helper lemmas on insertion-ordered maps -/

theorem lookup_mapSet_self {κ ν : Type} [BEq κ] [LawfulBEq κ] [DecidableEq κ]
    (m : List (κ × ν)) (k : κ) (v : ν) :
    List.lookup k (mapSet m k v) = some v := by
  induction m with
  | nil => simp [mapSet, List.lookup]
  | cons p rest ih =>
    obtain ⟨k1, v1⟩ := p
    by_cases h : k1 = k
    · subst h
      simp [mapSet, List.lookup]
    · have hb : (k == k1) = false := by
        simp [beq_iff_eq]
        exact fun hk => h hk.symm
      simp [mapSet, if_neg h, List.lookup, hb, ih]

theorem lookup_mapSet_ne {κ ν : Type} [BEq κ] [LawfulBEq κ] [DecidableEq κ]
    (m : List (κ × ν)) (k k2 : κ) (v : ν) (h : k2 ≠ k) :
    List.lookup k2 (mapSet m k v) = List.lookup k2 m := by
  induction m with
  | nil =>
    have hb : (k2 == k) = false := by simp [beq_iff_eq, h]
    simp [mapSet, List.lookup, hb]
  | cons p rest ih =>
    obtain ⟨k1, v1⟩ := p
    by_cases h1 : k1 = k
    · subst h1
      have hb : (k2 == k1) = false := by simp [beq_iff_eq, h]
      simp [mapSet, List.lookup, hb]
    · by_cases h2 : k2 = k1
      · subst h2
        simp [mapSet, if_neg h1, List.lookup]
      · have hb : (k2 == k1) = false := by simp [beq_iff_eq, h2]
        simp [mapSet, if_neg h1, List.lookup, hb, ih]

theorem mem_mapSet {κ ν : Type} [DecidableEq κ]
    (m : List (κ × ν)) (k : κ) (v : ν) (p : κ × ν)
    (hp : p ∈ mapSet m k v) : p ∈ m ∨ p = (k, v) := by
  induction m with
  | nil =>
    simp [mapSet] at hp
    exact Or.inr hp
  | cons q rest ih =>
    obtain ⟨k1, v1⟩ := q
    by_cases h : k1 = k
    · subst h
      simp [mapSet] at hp
      rcases hp with h | h
      · exact Or.inr h
      · exact Or.inl (List.mem_cons_of_mem _ h)
    · simp [mapSet, if_neg h] at hp
      rcases hp with h | h
      · exact Or.inl (by simp [h])
      · rcases ih h with h | h
        · exact Or.inl (List.mem_cons_of_mem _ h)
        · exact Or.inr h

theorem mem_mapDelete {κ ν : Type} [DecidableEq κ]
    (m : List (κ × ν)) (k : κ) (p : κ × ν)
    (hp : p ∈ mapDelete m k) : p ∈ m := by
  induction m with
  | nil => simp [mapDelete] at hp
  | cons q rest ih =>
    obtain ⟨k1, v1⟩ := q
    by_cases h : k1 = k
    · subst h
      simp [mapDelete] at hp
      exact List.mem_cons_of_mem _ hp
    · simp [mapDelete, if_neg h] at hp
      rcases hp with h | h
      · simp [h]
      · exact List.mem_cons_of_mem _ (ih h)

theorem keys_mapSet {κ ν : Type} [BEq κ] [LawfulBEq κ] [DecidableEq κ]
    (m : List (κ × ν)) (k : κ) (v : ν) :
    (mapSet m k v).map Prod.fst =
      if k ∈ m.map Prod.fst then m.map Prod.fst else m.map Prod.fst ++ [k] := by
  induction m with
  | nil => simp [mapSet]
  | cons p rest ih =>
    obtain ⟨k1, v1⟩ := p
    by_cases h : k1 = k
    · subst h
      simp [mapSet]
    · have hne : ¬(k = k1) := fun hk => h hk.symm
      simp only [mapSet, if_neg h, List.map_cons, ih, List.mem_cons, hne,
        false_or]
      split <;> simp

/-! ## Claim C8: `arraysEqual` -/

theorem jsStrictEq_refl (v : JsVal) : jsStrictEq v v = true := by
  cases v <;> simp [jsStrictEq]

theorem zip_all_jsStrictEq (a b : List JsVal) (hlen : a.length = b.length) :
    ((a.zip b).all fun p => jsStrictEq p.1 p.2) = true ↔
      ∀ (i : Nat) (h1 : i < a.length) (h2 : i < b.length),
        jsStrictEq (a.get ⟨i, h1⟩) (b.get ⟨i, h2⟩) = true := by
  rw [List.all_eq_true]
  constructor
  · intro h i h1 h2
    have hi : i < (a.zip b).length := by
      rw [List.length_zip]
      omega
    have hmem := List.getElem_mem hi
    have := h _ hmem
    rwa [List.getElem_zip] at this
  · intro h p hp
    obtain ⟨i, hi, rfl⟩ := List.mem_iff_getElem.1 hp
    rw [List.getElem_zip]
    have h1 : i < a.length := by
      rw [List.length_zip] at hi
      omega
    have h2 : i < b.length := by
      rw [List.length_zip] at hi
      omega
    exact h i h1 h2

/-- C8: `arraysEqual a b` is `true` iff `a` and `b` are the same array or have
equal length with every corresponding element pair strictly equal; in
particular it is reflexive, `false` for differing lengths, and `false` on
structurally-equal-but-distinct objects (distinct references). -/
theorem arraysEqual_spec (a b : List JsVal) :
    (arraysEqual a b = true ↔
      (a = b ∨ (a.length = b.length ∧
        ∀ (i : Nat) (h1 : i < a.length) (h2 : i < b.length),
          jsStrictEq (a.get ⟨i, h1⟩) (b.get ⟨i, h2⟩) = true))) ∧
    arraysEqual a a = true ∧
    (a.length ≠ b.length → arraysEqual a b = false) ∧
    arraysEqual [JsVal.obj 1] [JsVal.obj 2] = false := by
  have hrefl : ∀ c : List JsVal, arraysEqual c c = true := by
    intro c
    unfold arraysEqual
    rw [if_neg (by simp)]
    rw [zip_all_jsStrictEq c c rfl]
    intro i h1 h2
    exact jsStrictEq_refl _
  refine ⟨?_, hrefl a, ?_, by decide⟩
  · constructor
    · intro h
      unfold arraysEqual at h
      by_cases hlen : a.length = b.length
      · rw [if_neg (by omega)] at h
        exact Or.inr ⟨hlen, (zip_all_jsStrictEq a b hlen).1 h⟩
      · rw [if_pos hlen] at h
        exact absurd h (by simp)
    · rintro (rfl | ⟨hlen, h⟩)
      · exact hrefl a
      · unfold arraysEqual
        rw [if_neg (by omega)]
        exact (zip_all_jsStrictEq a b hlen).2 h
  · intro hlen
    unfold arraysEqual
    rw [if_pos hlen]

/-- Witness for C8 at concrete inputs: the iff and the differing-length
implication, instantiated and discharged. -/
theorem arraysEqual_spec_witness :
    arraysEqual [JsVal.num 1, JsVal.obj 5] [JsVal.num 1, JsVal.obj 5] = true ∧
    arraysEqual [JsVal.num 1] [JsVal.num 1, JsVal.num 2] = false :=
  ⟨(arraysEqual_spec [JsVal.num 1, JsVal.obj 5] [JsVal.num 1, JsVal.obj 5]).1.mpr
      (Or.inl rfl),
   (arraysEqual_spec [JsVal.num 1] [JsVal.num 1, JsVal.num 2]).2.2.1 (by decide)⟩

/-! ## Claim C7: case-conversion round trip -/

theorem dashedToCamelCase_cons_ne (c : Nat) (L : List Nat) (hc : c ≠ 45) :
    dashedToCamelCase (c :: L) = c :: dashedToCamelCase L := by
  cases L with
  | nil => simp [dashedToCamelCase]
  | cons d L2 => simp [dashedToCamelCase, hc]

/-- C7: on the restricted identifier alphabet (ASCII letters, digits,
underscore — no leading dash issues arise since the alphabet excludes `-`),
converting camelCase to kebab-case (spec-modelled, absent from the source) and
back through the source's `dashedToCamelCase` is the identity. -/
theorem kebab_camel_round_trip (s : List Nat)
    (h : ∀ c ∈ s, isIdentCode c = true) :
    dashedToCamelCase (camelToKebabCase s) = s := by
  induction s with
  | nil => rfl
  | cons c rest ih =>
    have hc : isIdentCode c = true := h c (List.mem_cons_self c rest)
    have hrest : ∀ x ∈ rest, isIdentCode x = true := fun x hx =>
      h x (List.mem_cons_of_mem _ hx)
    have hid : (48 ≤ c ∧ c ≤ 57) ∨ (65 ≤ c ∧ c ≤ 90) ∨
        (97 ≤ c ∧ c ≤ 122) ∨ c = 95 := by
      simp [isIdentCode] at hc
      tauto
    by_cases hu : 65 ≤ c ∧ c ≤ 90
    · -- uppercase letter: becomes `-` + lowercase, restored by the dash rule
      have hw : isWordCode (c + 32) = true := by
        simp [isWordCode]
        omega
      have hup : jsUpperCode (c + 32) = c := by
        simp [jsUpperCode]
        omega
      simp only [camelToKebabCase, if_pos hu, dashedToCamelCase, if_pos rfl,
        hw, if_true, hup, ih hrest]
    · -- not uppercase: the character is left alone in both directions
      have hne : c ≠ 45 := by omega
      simp only [camelToKebabCase, if_neg hu]
      rw [dashedToCamelCase_cons_ne c _ hne, ih hrest]

/-- Witness for C7 at a concrete identifier. -/
theorem kebab_camel_round_trip_witness :
    (∀ c ∈ codes "myLongVariableName", isIdentCode c = true) ∧
    dashedToCamelCase (camelToKebabCase (codes "myLongVariableName")) =
      codes "myLongVariableName" :=
  ⟨by decide, kebab_camel_round_trip (codes "myLongVariableName") (by decide)⟩

/-! ## Claim C4: timers -/

theorem lookup_mapSet_eq_none_iff {κ ν : Type} [BEq κ] [LawfulBEq κ]
    [DecidableEq κ] (m : List (κ × ν)) (k k2 : κ) (v : ν) :
    List.lookup k2 (mapSet m k v) = none ↔
      k2 ≠ k ∧ List.lookup k2 m = none := by
  by_cases h : k2 = k
  · subst h
    rw [lookup_mapSet_self]
    simp
  · rw [lookup_mapSet_ne _ _ _ _ h]
    simp [h]

theorem lookup_runTimers (ops : List TimerOp) (t : Times) (l : String) :
    List.lookup l (runTimers ops t) = none ↔
      (∀ op ∈ ops, isTimeFor l op = false) ∧ List.lookup l t = none := by
  induction ops generalizing t with
  | nil => simp [runTimers]
  | cons op ops ih =>
    cases op with
    | time l2 now =>
      simp only [runTimers, time, ih, List.mem_cons, isTimeFor,
        lookup_mapSet_eq_none_iff]
      constructor
      · rintro ⟨hops, hne, ht⟩
        refine ⟨?_, ht⟩
        intro op hop
        rcases hop with rfl | hop
        · simp [isTimeFor, beq_eq_false_iff_ne]
          exact fun he => hne he.symm
        · exact hops op hop
      · rintro ⟨hall, ht⟩
        have hhead := hall _ (Or.inl rfl)
        simp [isTimeFor, beq_eq_false_iff_ne] at hhead
        exact ⟨fun op hop => hall op (Or.inr hop), fun he => hhead he.symm, ht⟩
    | timeEnd l2 now =>
      simp only [runTimers, ih, List.mem_cons]
      constructor
      · rintro ⟨hops, ht⟩
        refine ⟨?_, ht⟩
        intro op hop
        rcases hop with rfl | hop
        · rfl
        · exact hops op hop
      · rintro ⟨hall, ht⟩
        exact ⟨fun op hop => hall op (Or.inr hop), ht⟩

theorem timeEnd_eq_error_iff (l : String) (now : Nat) (t : Times) :
    timeEnd l now t = .error "No such label:" ↔ List.lookup l t = none := by
  unfold timeEnd
  cases h : List.lookup l t <;> simp

/-- C4: `timeEnd` raises exactly when no `time` call for the label precedes it
(the table starts empty and nothing ever removes a timer entry); when the
label is present, `timeEnd` reads the stored start without modifying the
table (the model's `timeEnd` takes no table out because the source never
writes `_times`), so successive `timeEnd` calls all succeed and, under a
monotone clock, return non-decreasing durations. -/
theorem timeEnd_spec (ops : List TimerOp) (t : Times) (l : String)
    (s now now1 now2 : Nat) :
    (timeEnd l now (runTimers ops []) = .error "No such label:" ↔
      ∀ op ∈ ops, isTimeFor l op = false) ∧
    (∀ start, List.lookup l t = some start →
      timeEnd l now1 t = .ok (now1 - start) ∧
      (now1 ≤ now2 → timeEnd l now2 t = .ok (now2 - start) ∧
        now1 - start ≤ now2 - start)) ∧
    timeEnd l now1 (time l s t) = .ok (now1 - s) := by
  refine ⟨?_, ?_, ?_⟩
  · rw [timeEnd_eq_error_iff, lookup_runTimers]
    simp
  · intro start hst
    unfold timeEnd
    rw [hst]
    exact ⟨rfl, fun hle => ⟨rfl, Nat.sub_le_sub_right hle start⟩⟩
  · unfold timeEnd time
    rw [lookup_mapSet_self]

/-- Witness for C4: a `timeEnd` without a prior `time` for its label raises,
and after `time "x"` at 5 a `timeEnd` at 9 returns duration 4. -/
theorem timeEnd_spec_witness :
    timeEnd "x" 7 (runTimers [TimerOp.time "y" 3] []) =
        .error "No such label:" ∧
    timeEnd "x" 9 (time "x" 5 []) = .ok 4 :=
  ⟨(timeEnd_spec [TimerOp.time "y" 3] [] "x" 0 7 0 0).1.mpr (by decide),
   (timeEnd_spec [] [] "x" 5 0 9 0).2.2⟩

/-! ## Claims C5 and C10: counters -/

theorem lookup_count_self (l : String) (m : Counts) :
    List.lookup l (count l m) = some ((List.lookup l m).getD 0 + 1) :=
  lookup_mapSet_self m l _

theorem lookup_count_ne (l l2 : String) (m : Counts) (h : l2 ≠ l) :
    List.lookup l2 (count l m) = List.lookup l2 m :=
  lookup_mapSet_ne m l l2 _ h

theorem keys_countAll (ls : List String) (m : Counts) :
    (countAll ls m).map Prod.fst =
      ls.foldl (fun acc l => if l ∈ acc then acc else acc ++ [l])
        (m.map Prod.fst) := by
  induction ls generalizing m with
  | nil => rfl
  | cons l ls ih =>
    show (countAll ls (count l m)).map Prod.fst = _
    rw [ih, List.foldl_cons]
    congr 1
    exact keys_mapSet m l _

theorem lookup_countAll_not_mem (ls : List String) (l : String) (m : Counts)
    (h : l ∉ ls) : List.lookup l (countAll ls m) = List.lookup l m := by
  induction ls generalizing m with
  | nil => rfl
  | cons l2 ls ih =>
    have hne : l ≠ l2 := fun he => h (by simp [he])
    have hns : l ∉ ls := fun hm => h (List.mem_cons_of_mem _ hm)
    show List.lookup l (countAll ls (count l2 m)) = _
    rw [ih _ hns, lookup_count_ne _ _ _ hne]

theorem lookup_countAll_mem (ls : List String) (l : String) (m : Counts)
    (h : l ∈ ls) :
    List.lookup l (countAll ls m) =
      some ((List.lookup l m).getD 0 + ls.count l) := by
  induction ls generalizing m with
  | nil => simp at h
  | cons l2 ls ih =>
    show List.lookup l (countAll ls (count l2 m)) = _
    by_cases he : l = l2
    · subst he
      by_cases hm : l ∈ ls
      · rw [ih _ hm, lookup_count_self]
        have : List.count l (l :: ls) = List.count l ls + 1 := by
          simp [List.count_cons]
        rw [this]
        simp only [Option.getD_some]
        congr 1
        omega
      · rw [lookup_countAll_not_mem _ _ _ hm, lookup_count_self]
        have h0 : List.count l ls = 0 := List.count_eq_zero.2 hm
        simp [List.count_cons, h0]
    · have hm : l ∈ ls := by
        rcases List.mem_cons.1 h with h1 | h1
        · exact absurd h1 he
        · exact h1
      rw [ih _ hm, lookup_count_ne _ _ _ he]
      have : List.count l (l2 :: ls) = List.count l ls := by
        have : (l2 == l) = false := by
          simp [beq_iff_eq]
          exact fun hx => he hx.symm
        simp [List.count_cons, this]
      rw [this]

/-- C5: `countEnd` prints the label with its current count (0 when never
incremented) and deletes the label; `countEndAll` prints the whole table —
whose key order, after any series of `count` calls from the empty table, is
the order of first increment — omits labels never incremented (absent from
the table), and clears the table, so an immediately subsequent `countEndAll`
prints nothing. -/
theorem counters_spec (ls : List String) (l : String) (m : Counts) :
    (countEnd l m).1 = (l, (List.lookup l m).getD 0) ∧
    (List.lookup l m = none → (countEnd l m).1 = (l, 0)) ∧
    (countEnd l m).2 = mapDelete m l ∧
    (countEndAll m).1 = m ∧
    (countEndAll m).2 = [] ∧
    (countEndAll (countEndAll m).2).1 = [] ∧
    (countAll ls []).map Prod.fst = firstIncrementOrder ls ∧
    (l ∈ ls → List.lookup l (countAll ls []) = some (ls.count l)) ∧
    (l ∉ ls → List.lookup l (countAll ls []) = none) := by
  refine ⟨rfl, ?_, rfl, rfl, rfl, rfl, ?_, ?_, ?_⟩
  · intro h
    simp [countEnd, h]
  · exact keys_countAll ls []
  · intro h
    rw [lookup_countAll_mem ls l [] h]
    simp [List.lookup]
  · intro h
    rw [lookup_countAll_not_mem ls l [] h]
    rfl

/-- Witness for C5, at the spec's counter scenario in miniature: interleaved
increments of "even" and "odd", an untouched third label. -/
theorem counters_spec_witness :
    (countEnd "z" [] ).1 = ("z", 0) ∧
    (countAll ["even", "odd", "even", "odd"] []).map Prod.fst =
      firstIncrementOrder ["even", "odd", "even", "odd"] ∧
    List.lookup "even" (countAll ["even", "odd", "even", "odd"] []) = some 2 ∧
    List.lookup "nope" (countAll ["even", "odd", "even", "odd"] []) = none :=
  ⟨(counters_spec [] "z" []).2.1 rfl,
   (counters_spec ["even", "odd", "even", "odd"] "even" []).2.2.2.2.2.2.1,
   (counters_spec ["even", "odd", "even", "odd"] "even" []).2.2.2.2.2.2.2.1
     (by decide),
   (counters_spec ["even", "odd", "even", "odd"] "nope" []).2.2.2.2.2.2.2.2
     (by decide)⟩

theorem runCounterOps_pos (ops : List CounterOp) (m : Counts)
    (hm : ∀ p ∈ m, 0 < p.2) : ∀ p ∈ runCounterOps ops m, 0 < p.2 := by
  induction ops generalizing m with
  | nil => exact hm
  | cons op ops ih =>
    cases op with
    | count l =>
      apply ih
      intro p hp
      rcases mem_mapSet m l _ p hp with h | h
      · exact hm p h
      · rw [h]
        simp
    | countEnd l =>
      apply ih
      intro p hp
      exact hm p (mem_mapDelete m l p hp)
    | countEndAll =>
      apply ih
      intro p hp
      simp [countEndAll] at hp

/-- C10: after any history of `count` / `countEnd` / `countEndAll` calls the
counter table maps every present label to a strictly positive value —
`count` creates an entry at 1 or increments, `countEnd`/`countEndAll` delete
entries rather than zeroing them — while an absent label reads as 0. -/
theorem counter_table_invariant (ops : List CounterOp) (l : String)
    (m : Counts) :
    (∀ p ∈ runCounterOps ops [], 0 < p.2) ∧
    List.lookup l (count l m) = some ((List.lookup l m).getD 0 + 1) ∧
    (List.lookup l m = none → List.lookup l (count l m) = some 1) ∧
    (countEnd l m).2 = mapDelete m l ∧
    (countEndAll m).2 = [] ∧
    (List.lookup l m = none → (List.lookup l m).getD 0 = 0) := by
  refine ⟨runCounterOps_pos ops [] (by simp), lookup_count_self l m, ?_,
    rfl, rfl, ?_⟩
  · intro h
    rw [lookup_count_self, h]
    rfl
  · intro h
    rw [h]
    rfl

/-- Witness for C10 at a concrete history. -/
theorem counter_table_invariant_witness :
    (("a", 2) ∈
        runCounterOps [CounterOp.count "a", CounterOp.count "b",
          CounterOp.count "a", CounterOp.countEnd "b"] [] →
      0 < 2) ∧
    List.lookup "c" (count "c" []) = some 1 :=
  ⟨(counter_table_invariant [CounterOp.count "a", CounterOp.count "b",
      CounterOp.count "a", CounterOp.countEnd "b"] "c" []).1 ("a", 2),
   (counter_table_invariant [] "c" []).2.2.1 rfl⟩

/-! ## Claim C3: output redirection -/

/-- C3: `redirectOutputToFile` restores `process.stdout.write` to its
pre-call value on every exit path of the callback; on normal return it
returns the callback's value and reports the absolute output path through
the restored sink; on a thrown error it rethrows the same error after
restoring, writing nothing further. -/
theorem redirectOutputToFile_spec {ε α : Type} (home : List Nat)
    (realpath : List Nat → List Nat) (path : List Nat)
    (callback : ProcState → Except ε α × ProcState) (s : ProcState) :
    (redirectOutputToFile home realpath path callback s).2.stdoutWrite =
        s.stdoutWrite ∧
    (∀ v s2,
      callback { s with stdoutWrite := Sink.file (expandHomeDir home path) } =
          (.ok v, s2) →
      (redirectOutputToFile home realpath path callback s).1 = .ok v ∧
      (redirectOutputToFile home realpath path callback s).2.output =
        s2.output ++
          [(s.stdoutWrite, outputSavedTo ++ realpath (expandHomeDir home path))]) ∧
    (∀ e s2,
      callback { s with stdoutWrite := Sink.file (expandHomeDir home path) } =
          (.error e, s2) →
      (redirectOutputToFile home realpath path callback s).1 = .error e ∧
      (redirectOutputToFile home realpath path callback s).2.output =
        s2.output) := by
  cases hcb : callback { s with stdoutWrite := Sink.file (expandHomeDir home path) } with
  | mk r s2 =>
    cases r with
    | ok v =>
      have hred : redirectOutputToFile home realpath path callback s =
          (.ok v, writeStdout { s2 with stdoutWrite := s.stdoutWrite }
            (outputSavedTo ++ realpath (expandHomeDir home path))) := by
        unfold redirectOutputToFile
        rw [hcb]
      refine ⟨by rw [hred]; rfl, ?_, ?_⟩
      · intro v2 s3 h
        injection h with h1 h2
        injection h1 with h1
        subst h1
        subst h2
        rw [hred]
        exact ⟨rfl, rfl⟩
      · intro e s3 h
        injection h with h1 h2
        injection h1
    | error e =>
      have hred : redirectOutputToFile home realpath path callback s =
          (.error e, { s2 with stdoutWrite := s.stdoutWrite }) := by
        unfold redirectOutputToFile
        rw [hcb]
      refine ⟨by rw [hred], ?_, ?_⟩
      · intro v2 s3 h
        injection h with h1 h2
        injection h1
      · intro e2 s3 h
        injection h with h1 h2
        injection h1 with h1
        subst h1
        subst h2
        rw [hred]
        exact ⟨rfl, rfl⟩

/-- Witness for C3: a callback that writes one line and throws; the sink is
restored and the error propagates. -/
theorem redirectOutputToFile_spec_witness :
    (redirectOutputToFile (ε := Nat) (α := Nat) [] (fun p => p) (codes "out.txt")
        (fun st => (.error 7, writeStdout st (codes "line")))
        ⟨Sink.console, []⟩).2.stdoutWrite = Sink.console ∧
    (redirectOutputToFile (ε := Nat) (α := Nat) [] (fun p => p) (codes "out.txt")
        (fun st => (.error 7, writeStdout st (codes "line")))
        ⟨Sink.console, []⟩).1 = .error 7 :=
  ⟨(redirectOutputToFile_spec [] (fun p => p) (codes "out.txt")
      (fun st => (.error 7, writeStdout st (codes "line")))
      ⟨Sink.console, []⟩).1,
   ((redirectOutputToFile_spec [] (fun p => p) (codes "out.txt")
      (fun st => (.error 7, writeStdout st (codes "line")))
      ⟨Sink.console, []⟩).2.2 7
      (writeStdout ⟨Sink.file (expandHomeDir [] (codes "out.txt")), []⟩
        (codes "line")) rfl).1⟩

/-! ## Claim C1: `illFormedOpts` as a conformance predicate -/

theorem checkProp_some_rule (schema : Obj SchemaRule) (prop : String)
    (v : JsVal) (rule : SchemaRule)
    (hl : List.lookup prop schema = some rule) :
    checkProp schema prop v = none ↔
      isUndefinedLike v = false ∧ valueMatches rule v = true := by
  unfold checkProp
  rw [hl]
  by_cases hu : isUndefinedLike v
  · simp [hu]
  · simp only [hu, Bool.false_eq_true, if_false, eq_self_iff_true, true_and]
    cases hp : schemaPropType rule with
    | enum vs =>
      simp only [valueMatches, hp]
      split <;> simp_all
    | tag t =>
      simp only [valueMatches, hp]
      by_cases hc : constructorTag v = some t
      · rw [if_neg (by simp [hc])]
        cases v <;> cases ha : arrayTypeOf rule <;>
          simp_all [constructorTag] <;> split <;> simp_all
      · rw [if_pos (by simp [hc])]
        simp [hc]

theorem checkProp_eq_none_iff (schema : Obj SchemaRule) (prop : String)
    (v : JsVal) :
    checkProp schema prop v = none ↔
      ((List.lookup prop schema).isSome = true ∧ isUndefinedLike v = false ∧
        (match List.lookup prop schema with
         | some rule => valueMatches rule v
         | none => true) = true) := by
  cases hl : List.lookup prop schema with
  | none =>
    unfold checkProp
    rw [hl]
    simp
  | some rule =>
    rw [checkProp_some_rule schema prop v rule hl]
    simp

theorem findMissingProp_eq_none_iff (schema : Obj SchemaRule)
    (opts : Obj JsVal) :
    findMissingProp schema opts = none ↔
      schema.all
        (fun pr => isOptional pr.2 || (List.lookup pr.1 opts).isSome) = true := by
  unfold findMissingProp
  rw [List.findSome?_eq_none_iff, List.all_eq_true]
  refine forall_congr' fun pr => forall_congr' fun _ => ?_
  cases ho : isOptional pr.2 <;> cases hl : List.lookup pr.1 opts <;>
    simp [ho, hl]

/-- C1, amended: `illFormedOpts` returns `false` iff every required schema key
is present, every candidate key is declared, no value is `undefined` nor a
sequence that is *empty or* contains `undefined`, and every value matches its
declared type/element-type or permitted-value set. -/
theorem illFormedOpts_false_iff (schema : Obj SchemaRule) (opts : Obj JsVal) :
    illFormedOpts schema opts = false ↔
      specConformsAmended schema opts = true := by
  have main : illFormedOpts schema opts = false ↔
      (findMissingProp schema opts = none ∧
        ∀ pv ∈ opts, checkProp schema pv.1 pv.2 = none) := by
    unfold illFormedOpts illFormedOptsErr
    cases hm : findMissingProp schema opts with
    | some e => simp
    | none =>
      rw [show ∀ o : Option OptsErr, (o.isSome = false ↔ o = none) from
        fun o => by cases o <;> simp]
      simp [List.findSome?_eq_none_iff]
  rw [main, findMissingProp_eq_none_iff]
  unfold specConformsAmended
  simp only [Bool.and_eq_true, List.all_eq_true, Bool.not_eq_true']
  constructor
  · rintro ⟨h1, h2⟩
    refine ⟨⟨⟨h1, fun pv hpv => ?_⟩, fun pv hpv => ?_⟩, fun pv hpv => ?_⟩
    · exact ((checkProp_eq_none_iff schema pv.1 pv.2).1 (h2 pv hpv)).1
    · exact ((checkProp_eq_none_iff schema pv.1 pv.2).1 (h2 pv hpv)).2.1
    · exact ((checkProp_eq_none_iff schema pv.1 pv.2).1 (h2 pv hpv)).2.2
  · rintro ⟨⟨⟨h1, h2⟩, h3⟩, h4⟩
    exact ⟨h1, fun pv hpv => (checkProp_eq_none_iff schema pv.1 pv.2).2
      ⟨h2 pv hpv, h3 pv hpv, h4 pv hpv⟩⟩

/-- Counterexample to C1 as stated: for the schema `{list: Array}` and the
candidate `{list: []}`, the candidate satisfies every condition of the claim's
right-hand side (the empty array is not `undefined`, contains no `undefined`
element, and is of the declared type `Array`), yet `illFormedOpts` returns
`true` — the source additionally rejects *empty* sequences. -/
theorem illFormedOpts_empty_array_cex :
    illFormedOpts [("list", SchemaRule.bare (PropType.tag TypeTag.array))]
        [("list", JsVal.arr 0 [])] = true ∧
    specConformsC1 [("list", SchemaRule.bare (PropType.tag TypeTag.array))]
        [("list", JsVal.arr 0 [])] = true :=
  ⟨rfl, rfl⟩

/-! ## Claim C2: check order -/

theorem checkProp_eq_checkList (schema : Obj SchemaRule) (prop : String)
    (v : JsVal) :
    checkProp schema prop v = (checkList schema prop v).findSome? id := by
  unfold checkProp checkList unrecognizedCheck undefinedCheck enumCheck
    typeCheck elementTypeCheck
  cases hl : List.lookup prop schema with
  | none => simp [List.findSome?]
  | some rule =>
    by_cases hu : isUndefinedLike v
    · simp [hu, List.findSome?]
    · simp only [hu, Bool.false_eq_true, if_false, Option.isSome_some,
        if_true]
      cases hp : schemaPropType rule with
      | enum vs =>
        simp only [List.findSome?, id, Option.isSome_some, if_true,
          Bool.false_eq_true, if_false]
        split <;> simp
      | tag t =>
        by_cases hc : constructorTag v ≠ some t
        · simp [hc, List.findSome?]
        · simp only [hc, if_false, if_true, List.findSome?, id,
            Option.isSome_some, Bool.false_eq_true]
          cases v <;> cases ha : arrayTypeOf rule <;> simp [hu] <;>
            split <;> simp

/-- C2, amended: the missing-property pass over the schema completes first;
thereafter the candidate-key checks (unrecognized property, undefined value,
predefined values, type, element type — the spec's steps 2–6, in that order)
run *per candidate key* in insertion order, the first failure winning, with
exactly one violation diagnosed per call. -/
theorem illFormedOptsErr_sequenced (schema : Obj SchemaRule)
    (opts : Obj JsVal) :
    illFormedOptsErr schema opts = illFormedOptsSequenced schema opts := by
  unfold illFormedOptsErr illFormedOptsSequenced
  cases hm : findMissingProp schema opts with
  | some e => simp [Option.orElse]
  | none =>
    simp only [Option.orElse]
    congr 1
    funext pv
    exact checkProp_eq_checkList schema pv.1 pv.2

/-- Counterexample to C2 as stated: with schema `{a: Number}` and candidate
`{a: undefined, b: 1}` (in that key order), the source diagnoses the undefined
value of `a` — checks 2–6 run per candidate key — whereas the claimed
phase-by-phase order would diagnose the unrecognized key `b` first. -/
theorem illFormedOpts_order_cex :
    illFormedOptsErr [("a", SchemaRule.bare (PropType.tag TypeTag.number))]
        [("a", JsVal.undef), ("b", JsVal.num 1)] =
      some (OptsErr.undefinedValue "a") ∧
    illFormedOptsPhasedErr
        [("a", SchemaRule.bare (PropType.tag TypeTag.number))]
        [("a", JsVal.undef), ("b", JsVal.num 1)] =
      some (OptsErr.unrecognizedProperty "b") ∧
    illFormedOptsErr [("a", SchemaRule.bare (PropType.tag TypeTag.number))]
        [("a", JsVal.undef), ("b", JsVal.num 1)] ≠
      illFormedOptsPhasedErr
        [("a", SchemaRule.bare (PropType.tag TypeTag.number))]
        [("a", JsVal.undef), ("b", JsVal.num 1)] :=
  ⟨rfl, rfl, by decide⟩

/-! ## Claim C6: printer line policy -/

theorem prettyPrintStep_ne_nil (racc : List (List Nat)) (fa : List Nat) :
    prettyPrintStep racc fa ≠ [] := by
  cases racc with
  | nil => simp [prettyPrintStep]
  | cons p rest =>
    unfold prettyPrintStep
    by_cases h1 : containsCommaNewline fa = true
    · simp [h1]
    · by_cases h2 : 80 < getStylizedStringLength p
          + getStylizedStringLength fa + 1 <;>
        simp [h1, h2]

theorem prettyPrint_foldl_ne_nil (args : List PrintArg)
    (racc : List (List Nat)) (h : racc ≠ []) :
    args.foldl (fun r arg => prettyPrintStep r (formatArg arg)) racc ≠ [] := by
  induction args generalizing racc with
  | nil => exact h
  | cons a args ih => exact ih _ (prettyPrintStep_ne_nil racc (formatArg a))

theorem prettyPrint_fold_ne_nil (args : List PrintArg) (h : args ≠ []) :
    args.foldl (fun r arg => prettyPrintStep r (formatArg arg)) [] ≠ [] := by
  cases args with
  | nil => exact absurd rfl h
  | cons a args =>
    rw [List.foldl_cons]
    exact prettyPrint_foldl_ne_nil args _ (prettyPrintStep_ne_nil [] _)

/-- C6, amended: appending one more value to a non-empty argument list, its
formatted string starts a new output line exactly when it contains the
*comma-then-newline* pattern or the visible lengths (escape sequences
excluded) of the current last line and the new string, plus one for the
separating space, exceed 80; otherwise it is appended to the last line after
a single space. -/
theorem prettyPrint_append (args : List PrintArg) (a : PrintArg)
    (h : args ≠ []) :
    prettyPrint (args ++ [a]) =
      if containsCommaNewline (formatArg a) = true
          ∨ 80 < getStylizedStringLength ((prettyPrint args).getLastD [])
              + getStylizedStringLength (formatArg a) + 1 then
        prettyPrint args ++ [formatArg a]
      else
        (prettyPrint args).dropLast ++
          [(prettyPrint args).getLastD [] ++ 32 :: formatArg a] := by
  obtain ⟨p, rest, hR⟩ :=
    List.exists_cons_of_ne_nil (prettyPrint_fold_ne_nil args h)
  unfold prettyPrint
  rw [List.foldl_append, List.foldl_cons, List.foldl_nil, hR,
    List.reverse_cons, List.getLastD_concat, List.dropLast_concat]
  by_cases hc : containsCommaNewline (formatArg a) = true
  · simp only [prettyPrintStep, hc, if_true, List.reverse_cons, true_or,
      if_pos]
  · by_cases hlen : 80 < getStylizedStringLength p
        + getStylizedStringLength (formatArg a) + 1
    · rw [if_pos (Or.inr hlen)]
      simp only [prettyPrintStep, hc, Bool.false_eq_true, if_false,
        if_pos hlen, List.reverse_cons]
    · rw [if_neg (by tauto)]
      simp only [prettyPrintStep, hc, Bool.false_eq_true, if_false,
        if_neg hlen, List.reverse_cons]

/-- Witness for C6 at two short strings: appended onto one line. -/
theorem prettyPrint_append_witness :
    ([PrintArg.str (codes "a")] ≠ ([] : List PrintArg)) ∧
    prettyPrint ([PrintArg.str (codes "a")] ++ [PrintArg.str (codes "b")]) =
      (if containsCommaNewline (formatArg (PrintArg.str (codes "b"))) = true
          ∨ 80 < getStylizedStringLength
                ((prettyPrint [PrintArg.str (codes "a")]).getLastD [])
              + getStylizedStringLength (formatArg (PrintArg.str (codes "b")))
              + 1 then
        prettyPrint [PrintArg.str (codes "a")]
          ++ [formatArg (PrintArg.str (codes "b"))]
      else
        (prettyPrint [PrintArg.str (codes "a")]).dropLast ++
          [(prettyPrint [PrintArg.str (codes "a")]).getLastD []
            ++ 32 :: formatArg (PrintArg.str (codes "b"))]) :=
  ⟨by simp,
   prettyPrint_append [PrintArg.str (codes "a")] (PrintArg.str (codes "b"))
     (by simp)⟩

/-- Counterexample to C6 as stated: the second value's rendering contains the
newline-then-comma pattern, yet it does *not* start its own output line — the
two values are joined into a single line (the source tests for
comma-then-newline, not newline-then-comma). -/
theorem prettyPrint_newline_comma_cex :
    containsNewlineComma
        (formatArg (PrintArg.str (codes "x" ++ 10 :: 44 :: codes "y"))) =
      true ∧
    prettyPrint [PrintArg.str (codes "a"),
        PrintArg.str (codes "x" ++ 10 :: 44 :: codes "y")] =
      [codes "a" ++ 32 :: (codes "x" ++ 10 :: 44 :: codes "y")] :=
  ⟨rfl, rfl⟩

end Dantil
